import Mathlib

/-!
Verification of the string-interpolation routine `echoTag` from the
repository's string tests and of the `Hello` React component from
`src/components/hello.tsx`, against the repository's specification.

The JavaScript source of `echoTag` is:

  function echoTag(literals, ...substitutions) {
      let result = "";
      for (let i = 0; i < substitutions.length; i++) {
          result += literals[i];
          result += substitutions[i];
      }
      // add the last literal.
      result += literals[literals.length - 1];
      return result
  }

Substitution values are modelled after string coercion (the function only
ever uses them inside `+=` on a string, so only their textual form matters).
An out-of-range JavaScript array read yields `undefined`, which `+=` renders
as the text "undefined"; `jsIndex` captures exactly that.
-/

/-- Textual form that JavaScript string concatenation gives the `undefined`
value produced by an out-of-range array read. -/
def jsUndefinedText : String := "undefined"

/-- JavaScript array indexing followed by string coercion: an in-range read
yields the element, an out-of-range read yields `undefined`, rendered as
"undefined" by string concatenation. -/
def jsIndex (xs : List String) (i : Nat) : String :=
  (xs.get? i).getD jsUndefinedText

/-- Shallow embedding of `echoTag` from the source: a for-loop over
`0 ≤ i < substitutions.length` appending `literals[i]` then
`substitutions[i]` to the accumulator, followed by one final append of
`literals[literals.length - 1]`. -/
def echoTag (literals : List String) (substitutions : List String) : String :=
  ((List.range substitutions.length).foldl
      (fun result i => result ++ jsIndex literals i ++ jsIndex substitutions i) "")
    ++ jsIndex literals (literals.length - 1)

/-- Concatenation of a list of strings. -/
def strConcat : List String → String
  | [] => ""
  | s :: ss => s ++ strConcat ss

/-- Modelled from the spec's algorithm for `render`: append `fragments[i]`
then `substitutions[i]` for each i from 0 to N−2, then append the final
fragment `fragments[N-1]`; stated as structural recursion over the two
sequences (the fallback cases are only reached on inputs that violate the
spec's length invariant). -/
def specRender : List String → List String → String
  | f :: fs, s :: ss => f ++ (s ++ specRender fs ss)
  | f :: _, [] => f
  | [], _ => ""

/-- Interleaving of paired fragments and substitutions, fragment first. -/
def interleaveZip (fs ss : List String) : String :=
  strConcat (List.zipWith (fun f s => f ++ s) fs ss)

/-- Sum of the lengths of the strings in a list. -/
def totalLength (xs : List String) : Nat :=
  (xs.map String.length).sum

example : echoTag ["a", "b"] ["X"] = "aXb" := by decide

example : echoTag ["", " items cost $", "."] ["10", "2.50"] = "10 items cost $2.50." := by decide

example : echoTag ["a", "b"] ["X", "Y"] = "aXbYb" := by decide

example : echoTag ["a", "b", "c"] [] = "c" := by decide

lemma jsIndex_cons_zero (x : String) (xs : List String) : jsIndex (x :: xs) 0 = x := rfl

lemma jsIndex_cons_succ (x : String) (xs : List String) (i : Nat) :
    jsIndex (x :: xs) (i + 1) = jsIndex xs i := rfl

lemma foldl_append2 (g h : Nat → String) :
    ∀ (l : List Nat) (a : String),
      l.foldl (fun acc i => acc ++ g i ++ h i) a
        = a ++ strConcat (l.map fun i => g i ++ h i)
  | [], a => by simp [strConcat]
  | x :: xs, a => by
    simp only [List.foldl_cons, List.map_cons, strConcat]
    rw [foldl_append2 g h xs (a ++ g x ++ h x), String.append_assoc, String.append_assoc,
      String.append_assoc (g x) (h x)]

lemma echoTag_eq_concat (lits subs : List String) :
    echoTag lits subs =
      strConcat ((List.range subs.length).map fun i => jsIndex lits i ++ jsIndex subs i)
        ++ jsIndex lits (lits.length - 1) := by
  unfold echoTag
  rw [foldl_append2, String.empty_append]

lemma range_map_cons (f s : String) (fs ss : List String) :
    ((List.range (s :: ss).length).map fun i => jsIndex (f :: fs) i ++ jsIndex (s :: ss) i)
      = (f ++ s) :: ((List.range ss.length).map fun i => jsIndex fs i ++ jsIndex ss i) := by
  simp only [List.length_cons, List.range_succ_eq_map, List.map_cons, List.map_map]
  rfl

lemma echoTag_cons (f s : String) (fs ss : List String) (h : fs ≠ []) :
    echoTag (f :: fs) (s :: ss) = f ++ (s ++ echoTag fs ss) := by
  rw [echoTag_eq_concat, echoTag_eq_concat, range_map_cons]
  have hlen : (f :: fs).length - 1 = (fs.length - 1) + 1 := by
    cases fs with
    | nil => exact absurd rfl h
    | cons a as => simp
  rw [hlen, jsIndex_cons_succ]
  simp only [strConcat]
  rw [String.append_assoc, String.append_assoc]

lemma echoTag_single_eq (f : String) : echoTag [f] [] = f := by
  simp [echoTag, jsIndex, jsUndefinedText]

lemma echoTag_eq_specRender : ∀ (subs lits : List String),
    lits.length = subs.length + 1 → echoTag lits subs = specRender lits subs
  | [], lits, h => by
    cases lits with
    | nil => simp at h
    | cons f fs =>
      cases fs with
      | nil => rw [echoTag_single_eq]; rfl
      | cons a as => simp at h
  | s :: ss, lits, h => by
    cases lits with
    | nil => simp at h
    | cons f fs =>
      have hfs : fs.length = ss.length + 1 := by simpa using h
      have hne : fs ≠ [] := by
        intro hc
        rw [hc] at hfs
        simp at hfs
      rw [echoTag_cons f s fs ss hne, echoTag_eq_specRender ss fs hfs]
      rfl

lemma specRender_length : ∀ (subs lits : List String),
    lits.length = subs.length + 1 →
    (specRender lits subs).length = totalLength lits + totalLength subs
  | [], lits, h => by
    cases lits with
    | nil => simp at h
    | cons f fs =>
      cases fs with
      | nil => simp [specRender, totalLength]
      | cons a as => simp at h
  | s :: ss, lits, h => by
    cases lits with
    | nil => simp at h
    | cons f fs =>
      have hfs : fs.length = ss.length + 1 := by simpa using h
      have ih := specRender_length ss fs hfs
      simp only [specRender, String.length_append, totalLength, List.map_cons, List.sum_cons] at *
      omega

lemma concat_range_eq_zip : ∀ (ss fs : List String), ss.length ≤ fs.length →
    strConcat ((List.range ss.length).map fun i => jsIndex fs i ++ jsIndex ss i)
      = interleaveZip (fs.take ss.length) ss
  | [], fs, _ => by simp [interleaveZip, strConcat]
  | s :: ss, fs, h => by
    cases fs with
    | nil => simp at h
    | cons f fs =>
      have h' : ss.length ≤ fs.length := by simpa using h
      rw [range_map_cons]
      simp only [strConcat, List.length_cons, List.take_succ_cons, interleaveZip,
        List.zipWith_cons_cons]
      rw [concat_range_eq_zip ss fs h']
      rfl

lemma get?_length_sub_one : ∀ (fs : List String), fs ≠ [] →
    fs.get? (fs.length - 1) = fs.getLast?
  | [], h => absurd rfl h
  | [x], _ => rfl
  | x :: y :: t, _ => by
    have ih := get?_length_sub_one (y :: t) (by simp)
    simp only [List.length_cons, Nat.add_sub_cancel] at *
    rw [List.getLast?_cons_cons, ← ih]
    rfl

lemma jsIndex_last (fs : List String) (h : fs ≠ []) :
    jsIndex fs (fs.length - 1) = (fs.getLast?).getD "" := by
  unfold jsIndex
  rw [get?_length_sub_one fs h]
  cases hl : fs.getLast? with
  | none => exact absurd (List.getLast?_eq_none_iff.mp hl) h
  | some x => rfl

/-!
Model of the `Hello` React component from `src/src/components/hello.tsx`:

  export class Hello extends React.Component<HelloProps, {}> {
      render() {
          return <h1>Hello from {props.compiler} and {props.framework}!</h1>;
      }
  }

The body of `render` reads the bare identifier `props`. The only binding in
scope inside the method body is `this` (the class instance); no standalone
`props` binding is declared anywhere in the file, so evaluating the JSX
expression raises a ReferenceError before any element is produced.
-/

/-- Props type of the `Hello` component. -/
structure HelloProps where
  compiler : String
  framework : String

/-- Outcome of evaluating the body of a render method: either a produced
HTML element (as its markup text) or a JavaScript ReferenceError naming the
unresolved identifier. -/
inductive RenderResult where
  | element (html : String)
  | referenceError (ident : String)
deriving DecidableEq

/-- Identifiers bound in the scope of the body of `Hello.render` in
`hello.tsx`: only `this`; the file declares no standalone `props` binding. -/
def helloRenderScope : List String := ["this"]

/-- Shallow embedding of `Hello.render`: its body reads the bare identifier
`props` (not `this.props`); the read succeeds only if `props` is in scope,
in which case the heading element would be built from the compiler and
framework properties; otherwise the evaluation raises a ReferenceError. -/
def Hello.render (this : HelloProps) : RenderResult :=
  if "props" ∈ helloRenderScope then
    RenderResult.element
      ("<h1>Hello from " ++ this.compiler ++ " and " ++ this.framework ++ "!</h1>")
  else
    RenderResult.referenceError "props"

/-- C1 (counterexample): with fragments = ["a", "b"] and substitutions =
["X", "Y"] (two fragments, two substitutions, a mismatched pair), the call
does not fail with a LengthMismatch error: it returns the string "aXbYb",
refuting the claim that the only outcome on a length mismatch is a failure. -/
theorem echoTag_mismatched_returns_string :
    echoTag ["a", "b"] ["X", "Y"] = "aXbYb" := by decide

/-- C1 (amended): for len(fragments) = 2 and len(substitutions) = 2, echoTag
does not fail; it returns the string fragments[0] ++ substitutions[0] ++
fragments[1] ++ substitutions[1] ++ fragments[1] (the loop re-reads the last
fragment after consuming both substitutions). -/
theorem echoTag_two_two_behavior (f0 f1 s0 s1 : String) :
    echoTag [f0, f1] [s0, s1] = f0 ++ s0 ++ f1 ++ s1 ++ f1 := rfl

/-- C2: whenever len(fragments) = len(substitutions) + 1, echoTag returns
exactly the string described by the spec's algorithm: the literal
interleaving of fragments and substitutions in source order, ending with the
final fragment, with no re-ordering and no transformation of content. -/
theorem echoTag_valid_interleaving (fragments substitutions : List String)
    (h : fragments.length = substitutions.length + 1) :
    echoTag fragments substitutions = specRender fragments substitutions :=
  echoTag_eq_specRender substitutions fragments h

/-- Witness for C2 at fragments = ["a", "b"], substitutions = ["X"]. -/
theorem echoTag_valid_interleaving_witness :
    (["a", "b"] : List String).length = (["X"] : List String).length + 1 ∧
      echoTag ["a", "b"] ["X"] = specRender ["a", "b"] ["X"] :=
  ⟨by decide, echoTag_valid_interleaving ["a", "b"] ["X"] (by decide)⟩

/-- C3: whenever len(fragments) = len(substitutions) + 1, the length of the
string returned by echoTag equals the sum of the fragment lengths plus the
sum of the stringified-substitution lengths. -/
theorem echoTag_length_sum (fragments substitutions : List String)
    (h : fragments.length = substitutions.length + 1) :
    (echoTag fragments substitutions).length
      = totalLength fragments + totalLength substitutions := by
  rw [echoTag_eq_specRender substitutions fragments h]
  exact specRender_length substitutions fragments h

/-- Witness for C3 at fragments = ["ab", "cd", "e"], substitutions =
["XY", "Z"]. -/
theorem echoTag_length_sum_witness :
    (["ab", "cd", "e"] : List String).length = (["XY", "Z"] : List String).length + 1 ∧
      (echoTag ["ab", "cd", "e"] ["XY", "Z"]).length
        = totalLength ["ab", "cd", "e"] + totalLength ["XY", "Z"] :=
  ⟨by decide, echoTag_length_sum ["ab", "cd", "e"] ["XY", "Z"] (by decide)⟩

/-- C4: for every pair of inputs, mismatched ones included, echoTag returns
a string and never raises: the loop runs len(substitutions) times, each
out-of-range fragment read contributes the text "undefined" (string
concatenation coerces the undefined index result), and the read of
fragments[len(fragments) - 1] is appended last. -/
theorem echoTag_never_fails (fragments substitutions : List String) :
    echoTag fragments substitutions
      = strConcat ((List.range substitutions.length).map fun i =>
          ((fragments.get? i).getD "undefined") ++ ((substitutions.get? i).getD "undefined"))
        ++ ((fragments.get? (fragments.length - 1)).getD "undefined") := by
  rw [echoTag_eq_concat]
  rfl

/-- C5: with a singleton fragment list and no substitutions, echoTag returns
the single fragment unchanged. -/
theorem echoTag_singleton_identity (f : String) : echoTag [f] [] = f :=
  echoTag_single_eq f

/-- C6: on fragments = ["", " items cost $", "."] and substitutions =
["10", "2.50"] (the number 10 stringified as "10"), echoTag returns exactly
"10 items cost $2.50.". -/
theorem echoTag_items_cost_scenario :
    echoTag ["", " items cost $", "."] ["10", "2.50"] = "10 items cost $2.50." := by
  decide

/-- C7: on fragments = ["a", "b"] and substitutions = ["X"], echoTag returns
exactly "aXb". -/
theorem echoTag_aXb_scenario : echoTag ["a", "b"] ["X"] = "aXb" := by decide

/-- C8: echoTag is deterministic: two invocations with identical fragments
and substitutions yield identical output strings (the embedding is a pure
function of its inputs, so it has no effect on outside state). -/
theorem echoTag_deterministic (frags₁ subs₁ frags₂ subs₂ : List String)
    (hf : frags₁ = frags₂) (hs : subs₁ = subs₂) :
    echoTag frags₁ subs₁ = echoTag frags₂ subs₂ := by
  rw [hf, hs]

/-- Witness for C8 at fragments = ["a", "b"], substitutions = ["X"]. -/
theorem echoTag_deterministic_witness :
    (["a", "b"] : List String) = ["a", "b"] ∧ (["X"] : List String) = ["X"] ∧
      echoTag ["a", "b"] ["X"] = echoTag ["a", "b"] ["X"] :=
  ⟨rfl, rfl, echoTag_deterministic ["a", "b"] ["X"] ["a", "b"] ["X"] rfl rfl⟩

/-- C9: whenever len(fragments) > len(substitutions) + 1, echoTag silently
omits the fragments between index len(substitutions) and the second-to-last:
the result is the interleaving of the first len(substitutions) fragments
with the substitutions, followed directly by the last fragment. -/
theorem echoTag_extra_fragments_dropped (fragments substitutions : List String)
    (h : substitutions.length + 1 < fragments.length) :
    echoTag fragments substitutions
      = interleaveZip (fragments.take substitutions.length) substitutions
          ++ (fragments.getLast?).getD "" := by
  have hne : fragments ≠ [] := by
    intro hc
    rw [hc] at h
    simp at h
  have hle : substitutions.length ≤ fragments.length := by omega
  rw [echoTag_eq_concat, concat_range_eq_zip substitutions fragments hle,
    jsIndex_last fragments hne]

/-- Witness for C9 at fragments = ["a", "b", "c"], substitutions = []: the
middle fragment "b" is dropped and the result is "c". -/
theorem echoTag_extra_fragments_dropped_witness :
    ([] : List String).length + 1 < (["a", "b", "c"] : List String).length ∧
      echoTag ["a", "b", "c"] []
        = interleaveZip ((["a", "b", "c"] : List String).take ([] : List String).length) []
            ++ ((["a", "b", "c"] : List String).getLast?).getD "" :=
  ⟨by decide, echoTag_extra_fragments_dropped ["a", "b", "c"] [] (by decide)⟩

/-- C10: evaluating Hello.render on the well-typed props
{compiler := "TypeScript", framework := "React"} does not return a heading
element: the body's read of the unbound identifier `props` raises a
ReferenceError, contradicting the claim that render succeeds for every
well-typed HelloProps input. -/
theorem hello_render_reference_error :
    Hello.render ⟨"TypeScript", "React"⟩ = RenderResult.referenceError "props" := by
  decide
